import Mathlib

/-!
Shallow embedding of the document-to-codebook pipeline of `src/main.py`
(repository Kevin-HA-KHA/codesocial), together with proofs of the spec's
claims about it.

Strings are modelled as `List Char`.  Each definition is translated from the
named Python function or line range of `src/main.py`.
-/

set_option autoImplicit false

namespace CodeSocial

/-! ## ResponseSanitizer: `clean_json_string` (src/main.py lines 29–35)

Python: `re.sub(r'(?<!\\)\n', ' ', json_str)` — every newline character whose
immediately preceding character in the *original* string is not a backslash is
replaced by a single space.  The lookbehind examines the original input, so we
thread the previous original character through the recursion. -/

/-- One pass over the string; `prev` is the previous character of the
original input (`none` at the start of the string). -/
def clean_aux : Option Char → List Char → List Char
  | _, [] => []
  | prev, c :: cs =>
    (if c = '\n' ∧ prev ≠ some '\\' then ' ' else c) :: clean_aux (some c) cs

/-- Translation of `clean_json_string` (src/main.py line 34). -/
def clean_json_string (t : List Char) : List Char :=
  clean_aux none t

/-! ## JsonExtractor: `extract_json` (src/main.py lines 38–46)

Python: `re.search(r"\{.*\}", text, re.DOTALL)`.  The leftmost match of this
pattern starts at the first `'{'` of the text, and the greedy `.*` extends the
match to the last `'}'` of the whole text; a match exists exactly when some
`'{'` is followed (strictly later) by some `'}'`.  On no match the Python code
raises `ValueError` ("NoJsonFound" in the spec), modelled as `none`. -/

/-- Index of the first occurrence of `c`, if any. -/
def findFirst (c : Char) : List Char → Option Nat
  | [] => none
  | x :: xs => if x = c then some 0 else (findFirst c xs).map (· + 1)

/-- Index of the last occurrence of `c`, if any. -/
def findLast (c : Char) : List Char → Option Nat
  | [] => none
  | x :: xs =>
    match findLast c xs with
    | some j => some (j + 1)
    | none => if x = c then some 0 else none

/-- Translation of `extract_json` (src/main.py lines 42–46): the span from the
first `'{'` to the last `'}'` when the former strictly precedes the latter,
otherwise the `ValueError` path (`none`). -/
def extract_json (t : List Char) : Option (List Char) :=
  match findFirst '{' t, findLast '}' t with
  | some i, some j => if i < j then some ((t.drop i).take (j + 1 - i)) else none
  | _, _ => none

/-! ## JSON values and `json.loads`

`json.loads` is the Python standard library, not part of this repository's
source.  Modelled from the spec: "Parse the sanitized JSON text as a
CodingPayload structure" — a standard JSON parser over objects, arrays,
strings (with the usual single-character escapes), integer numbers, and the
literals `true` / `false` / `null`.  As in strict-mode `json.loads`, raw
control characters inside string literals are rejected (which is what makes
the newline sanitizer necessary).  Out of modelled scope: `\uXXXX` escapes
and fractional/exponent number forms (no claim touches them); these inputs
are mapped to a parse failure. -/

inductive Json where
  | null
  | bool (b : Bool)
  | num (n : Int)
  | str (s : List Char)
  | arr (elems : List Json)
  | obj (members : List (List Char × Json))

/-- JSON insignificant whitespace (RFC 8259: space, tab, LF, CR). -/
def skipWs : List Char → List Char
  | [] => []
  | c :: cs => if c = ' ' ∨ c = '\t' ∨ c = '\n' ∨ c = '\r' then skipWs cs else c :: cs

/-- Decode one escape character of a JSON string literal. -/
def escChar (e : Char) : Option Char :=
  if e = '"' then some '"'
  else if e = '\\' then some '\\'
  else if e = '/' then some '/'
  else if e = 'n' then some '\n'
  else if e = 't' then some '\t'
  else if e = 'r' then some '\r'
  else if e = 'b' then some (Char.ofNat 8)
  else if e = 'f' then some (Char.ofNat 12)
  else none

/-- Parse the body of a JSON string literal (the opening quote already
consumed); returns the decoded content and the remaining input after the
closing quote.  Raw control characters are rejected, as in strict-mode
`json.loads`. -/
def parseStr : List Char → Option (List Char × List Char)
  | [] => none
  | c :: cs =>
    if c = '"' then some ([], cs)
    else if c = '\\' then
      match cs with
      | [] => none
      | e :: cs' =>
        match escChar e with
        | none => none
        | some ch => (parseStr cs').map fun p => (ch :: p.1, p.2)
    else if c.toNat < 32 then none
    else (parseStr cs).map fun p => (c :: p.1, p.2)

/-- Parse a nonempty run of decimal digits into a natural number. -/
def parseDigits (s : List Char) : Option (Nat × List Char) :=
  let ds := s.takeWhile Char.isDigit
  if ds.isEmpty then none
  else some (ds.foldl (fun a c => a * 10 + (c.toNat - 48)) 0, s.drop ds.length)

/-- The three mutually recursive parsing activities, merged into one function
so that the recursion is structural on the fuel: parsing one value, parsing
the remaining members of an object, parsing the remaining elements of an
array. -/
inductive PMode where
  | val
  | members (acc : List (List Char × Json))
  | elems (acc : List Json)

/-- Fuel-indexed JSON parser.  Every second recursive call consumes at least
one input character, so fuel `2 * length + 4` always suffices (see
`jsonParse`). -/
def parseF : Nat → PMode → List Char → Option (Json × List Char)
  | 0, _, _ => none
  | fuel + 1, .val, s =>
    match skipWs s with
    | [] => none
    | c :: cs =>
      if c = '{' then
        match skipWs cs with
        | '}' :: rest => some (.obj [], rest)
        | cs' => parseF fuel (.members []) cs'
      else if c = '[' then
        match skipWs cs with
        | ']' :: rest => some (.arr [], rest)
        | cs' => parseF fuel (.elems []) cs'
      else if c = '"' then (parseStr cs).map fun p => (.str p.1, p.2)
      else if c = 't' then
        match cs with
        | 'r' :: 'u' :: 'e' :: r => some (.bool true, r)
        | _ => none
      else if c = 'f' then
        match cs with
        | 'a' :: 'l' :: 's' :: 'e' :: r => some (.bool false, r)
        | _ => none
      else if c = 'n' then
        match cs with
        | 'u' :: 'l' :: 'l' :: r => some (.null, r)
        | _ => none
      else if c = '-' then (parseDigits cs).map fun p => (.num (-(p.1 : Int)), p.2)
      else if c.isDigit then (parseDigits (c :: cs)).map fun p => (.num (p.1 : Int), p.2)
      else none
  | fuel + 1, .members acc, s =>
    match skipWs s with
    | '"' :: cs =>
      match parseStr cs with
      | none => none
      | some (key, r1) =>
        match skipWs r1 with
        | ':' :: r2 =>
          match parseF fuel .val r2 with
          | none => none
          | some (v, r3) =>
            match skipWs r3 with
            | ',' :: r4 => parseF fuel (.members (acc ++ [(key, v)])) r4
            | '}' :: r4 => some (.obj (acc ++ [(key, v)]), r4)
            | _ => none
        | _ => none
    | _ => none
  | fuel + 1, .elems acc, s =>
    match parseF fuel .val s with
    | none => none
    | some (v, r) =>
      match skipWs r with
      | ',' :: r2 => parseF fuel (.elems (acc ++ [v])) r2
      | ']' :: r2 => some (.arr (acc ++ [v]), r2)
      | _ => none

/-- Model of `json.loads` on the sanitized span: parse one JSON value and
require that only whitespace remains, as `json.loads` rejects trailing
content.  `none` models a raised `JSONDecodeError`. -/
def jsonParse (t : List Char) : Option Json :=
  match parseF (2 * t.length + 4) .val t with
  | some (v, rest) => if (skipWs rest).isEmpty then some v else none
  | none => none

/-! ## CodebookRowBuilder (src/main.py lines 136–147)

The Python loop runs on the value returned by `json.loads`:

```
df_rows = []
for theme in data.get('themes', []):
    th = theme.get('theme', '')
    codages = theme.get('codages', [])
    verbatims = theme.get('verbatims', [])
    for coding, verbatim in zip(codages, verbatims):
        df_rows.append({'Theme': th, 'Coding': coding, 'Verbatim': verbatim})
```

Row fields carry `Json` values because Python stores whatever value the keys
map to.  A Python `dict` built by `json.loads` keeps the *last* binding of a
duplicated key, hence `lookupLast`.  This loop sits *outside* the
`try`/`except` of lines 125–132: when it raises (e.g. `data` is not a dict)
the process crashes with an uncaught exception rather than taking the
print-and-return abort path; `none` models such a crash.  Iterating a
non-list iterable (a JSON string or object where a list is expected) is out
of modelled scope and also mapped to `none`; no claim touches those inputs. -/

/-- One output record of the codebook (a row of the pandas DataFrame). -/
structure Row where
  theme : Json
  coding : Json
  verbatim : Json

/-- Lookup in a parsed JSON object with Python-dict semantics: the last
binding of a key wins.  `none` means the key is absent. -/
def lookupLast (m : List (List Char × Json)) (k : List Char) : Option Json :=
  match m with
  | [] => none
  | (k', v) :: rest =>
    match lookupLast rest k with
    | some r => some r
    | none => if k' = k then some v else none

/-- The list Python iterates for a `.get(key, [])` value: an absent key gives
the default `[]`, a JSON array gives its elements, anything else is out of
modelled scope (`none`). -/
def asElems : Option Json → Option (List Json)
  | none => some []
  | some (.arr l) => some l
  | some _ => none

/-- Rows contributed by one entry of the `themes` list (one iteration of the
outer Python loop): `zip` pairs `codages[i]` with `verbatims[i]` up to the
shorter of the two. -/
def rowsOfBlock (b : Json) : Option (List Row) :=
  match b with
  | .obj bm =>
    match asElems (lookupLast bm "codages".toList),
          asElems (lookupLast bm "verbatims".toList) with
    | some cs, some vs =>
      some ((cs.zip vs).map fun p =>
        ⟨(lookupLast bm "theme".toList).getD (.str []), p.1, p.2⟩)
    | _, _ => none
  | _ => none

/-- Translation of the row-building loop (src/main.py lines 136–147) applied
to the parsed value `data`. -/
def buildRows (data : Json) : Option (List Row) :=
  match data with
  | .obj m =>
    match asElems (lookupLast m "themes".toList) with
    | some blocks => (blocks.mapM rowsOfBlock).map List.flatten
    | none => none
  | _ => none

/-! ### CodingPayload view

The spec's CodingPayload: a sequence of ThemeBlock entries with all fields
present and of the expected string/list-of-string shapes.  `build` is the
same loop as `buildRows` specialised to this well-formed shape;
`buildRows_payloadJson` below proves the two agree. -/

structure ThemeBlock where
  theme : List Char
  codings : List (List Char)
  verbatims : List (List Char)

/-- The spec's CodebookRowBuilder `build`: the row loop of
src/main.py lines 136–147 on a well-formed payload. -/
def build (payload : List ThemeBlock) : List Row :=
  payload.flatMap fun b =>
    (b.codings.zip b.verbatims).map fun p => ⟨.str b.theme, .str p.1, .str p.2⟩

/-- The JSON encoding of a well-formed CodingPayload. -/
def payloadJson (payload : List ThemeBlock) : Json :=
  .obj [("themes".toList, .arr (payload.map fun b =>
    .obj [("theme".toList, .str b.theme),
          ("codages".toList, .arr (b.codings.map .str)),
          ("verbatims".toList, .arr (b.verbatims.map .str))]))]

/-! ## PipelineOrchestrator (src/main.py lines 114–156)

The loop over the listed documents.  `analyze` abstracts the analysis
service (`analyze_document`, an external collaborator): it maps a document's
text to the raw response string.  A `Doc` is one `(displayName, documentText)`
pair.  Outcomes:

* `.ok cb` — the loop finished; control reaches the `ExcelWriter` block
  (lines 150–156) which writes the artifact from codebook `cb`;
* `.aborted raw` — the `except` branch (lines 129–132) fired: the raw,
  unmodified response is printed and `main` returns before any artifact is
  written;
* `.crashed` — an uncaught exception in the row-building loop (which sits
  outside the `try`): the process dies, also with no artifact.

The second component of the result is the list of texts submitted to the
analysis service, in call order (one entry per `analyze_document` call at
line 122). -/

structure Doc where
  name : List Char
  text : List Char

/-- Python whitespace for `str.strip()` (ASCII scope; exotic Unicode spaces
are out of modelled scope). -/
def pyIsSpace (c : Char) : Bool :=
  c = ' ' ∨ c = '\t' ∨ c = '\n' ∨ c = '\r' ∨ c = Char.ofNat 11 ∨ c = Char.ofNat 12

/-- Translation of `not content.strip()` (src/main.py line 118). -/
def isBlank (t : List Char) : Bool :=
  t.all pyIsSpace

/-- A codebook is a Python dict: association list in first-insertion order. -/
abbrev Codebook := List (List Char × List Row)

/-- Python dict assignment `codebook[key] = value`: overwrite in place when
the key exists, append otherwise. -/
def dictInsert (cb : Codebook) (k : List Char) (v : List Row) : Codebook :=
  match cb with
  | [] => [(k, v)]
  | (k', v') :: rest =>
    if k' = k then (k, v) :: rest else (k', v') :: dictInsert rest k v

inductive RunResult where
  | ok (cb : Codebook)
  | aborted (raw : List Char)
  | crashed

/-- The extraction-and-parse stage of one document (src/main.py lines
126–128): `extract_json` runs on the *original* response, then
`clean_json_string` on the extracted span, then `json.loads`. -/
def docParse (resp : List Char) : Option Json :=
  match extract_json resp with
  | none => none
  | some span => jsonParse (clean_json_string span)

/-- Translation of the document loop (src/main.py lines 114–148) plus the
outcome of the writer block, starting from codebook `cb`.  Returns the run
outcome and the log of analysis-service calls. -/
def processDocs (analyze : List Char → List Char) (cb : Codebook) :
    List Doc → RunResult × List (List Char)
  | [] => (.ok cb, [])
  | d :: rest =>
    if isBlank d.text then processDocs analyze cb rest
    else
      let resp := analyze d.text
      match docParse resp with
      | none => (.aborted resp, [d.text])
      | some data =>
        match buildRows data with
        | none => (.crashed, [d.text])
        | some rows =>
          let pr := processDocs analyze (dictInsert cb (d.name.take 31) rows) rest
          (pr.1, d.text :: pr.2)

/-- A full run of `main`'s document loop, from the empty codebook. -/
def run (analyze : List Char → List Char) (docs : List Doc) :
    RunResult × List (List Char) :=
  processDocs analyze [] docs

/-- The full per-document chain on a response: extraction and parsing
(`docParse`, the `try` block) followed by the row-building loop. -/
def docRows (resp : List Char) : Option (List Row) :=
  (docParse resp).bind buildRows

/-- A document the loop gets past without aborting or crashing: it is either
blank (skipped) or its response parses and builds rows. -/
def docOk (analyze : List Char → List Char) (d : Doc) : Prop :=
  isBlank d.text = true ∨ (docRows (analyze d.text)).isSome = true

/-! ### Concrete inputs used by the end-to-end claims -/

/-- The analysis response of the spec's end-to-end example: prose, a
newline, the JSON payload, a newline, more prose. -/
def resp6 : List Char :=
  ("Reasoning...\n\x7b\"themes\":[\x7b\"theme\":\"T\",\"codages\":[\"A\"],"
    ++ "\"verbatims\":[\"quote one\"]\x7d]\x7d\nDone.").toList

/-- The display name of the spec's duplicate-sheet example: 61 characters,
so truncation to 31 loses the tail. -/
def longName : List Char :=
  "Interview 1 - a very long title that exceeds thirty one chars".toList

/-- Response of the first document of the duplicate-sheet example. -/
def resp7a : List Char :=
  "\x7b\"themes\":[\x7b\"theme\":\"T1\",\"codages\":[\"A\"],\"verbatims\":[\"V1\"]\x7d]\x7d".toList

/-- Response of the second document of the duplicate-sheet example. -/
def resp7b : List Char :=
  "\x7b\"themes\":[\x7b\"theme\":\"T2\",\"codages\":[\"B\"],\"verbatims\":[\"V2\"]\x7d]\x7d".toList

/-- Analysis-service stub of the duplicate-sheet example: the two documents
get the two responses. -/
def analyze7 (t : List Char) : List Char :=
  if t = "one".toList then resp7a else resp7b

/-- Analysis-service stub of the abort example: one document gets a valid
response, every other document gets prose with no JSON object in it. -/
def analyzeW (t : List Char) : List Char :=
  if t = "good".toList then resp7a else "no json".toList

/-! ## Lemmas about the sanitizer -/

theorem clean_aux_length (prev : Option Char) (t : List Char) :
    (clean_aux prev t).length = t.length := by
  induction t generalizing prev with
  | nil => rfl
  | cons c cs ih => simp [clean_aux, ih]

theorem clean_aux_getElem? (prev : Option Char) (t : List Char) (i : Nat) :
    (clean_aux prev t)[i]? = (t[i]?).map (fun c =>
      if c = '\n' ∧ (if i = 0 then prev else t[i - 1]?) ≠ some '\\' then ' ' else c) := by
  induction t generalizing prev i with
  | nil => simp [clean_aux]
  | cons c cs ih =>
    match i with
    | 0 => simp [clean_aux]
    | j + 1 =>
      simp only [clean_aux, List.getElem?_cons_succ, ih (some c) j]
      match j with
      | 0 => simp
      | k + 1 => simp

/-- Claim C4: `clean_json_string` returns the input with every newline not
immediately preceded by a backslash replaced by a single space (characterised
pointwise: the length is preserved and position `i` is turned into a space
exactly when it holds a newline whose predecessor is not a backslash, all
other positions unchanged), and it is the identity on strings with no
unescaped newline.  Totality and freedom from side effects are inherent in
the functional model. -/
theorem C4_sanitize_unescaped_newlines :
    (∀ t : List Char, (clean_json_string t).length = t.length) ∧
    (∀ (t : List Char) (i : Nat),
        (clean_json_string t)[i]? = (t[i]?).map (fun c =>
          if c = '\n' ∧ (i = 0 ∨ t[i - 1]? ≠ some '\\') then ' ' else c)) ∧
    (∀ t : List Char,
        (∀ i, ¬(t[i]? = some '\n' ∧ (i = 0 ∨ t[i - 1]? ≠ some '\\'))) →
        clean_json_string t = t) := by
  have hpoint : ∀ (t : List Char) (i : Nat),
      (clean_json_string t)[i]? = (t[i]?).map (fun c =>
        if c = '\n' ∧ (i = 0 ∨ t[i - 1]? ≠ some '\\') then ' ' else c) := by
    intro t i
    rw [clean_json_string, clean_aux_getElem?]
    match i with
    | 0 => simp
    | j + 1 => simp
  refine ⟨fun t => clean_aux_length none t, hpoint, ?_⟩
  intro t h
  apply List.ext_getElem?
  intro i
  rw [hpoint t i]
  cases hc : t[i]? with
  | none => rfl
  | some c =>
    simp only [Option.map_some']
    by_cases hcond : c = '\n' ∧ (i = 0 ∨ t[i - 1]? ≠ some '\\')
    · rw [hcond.1] at hc
      exact absurd ⟨hc, hcond.2⟩ (h i)
    · rw [if_neg hcond]

/-- Witness for the conditional part of `C4_sanitize_unescaped_newlines`:
a concrete string with no unescaped newline is returned unchanged. -/
theorem C4_sanitize_witness :
    (∀ i, ¬(("abc".toList)[i]? = some '\n' ∧
      (i = 0 ∨ ("abc".toList)[i - 1]? ≠ some '\\'))) ∧
    clean_json_string ("abc".toList) = "abc".toList := by
  have h : ∀ i, ¬(("abc".toList)[i]? = some '\n' ∧
      (i = 0 ∨ ("abc".toList)[i - 1]? ≠ some '\\')) := by
    intro i hi
    have hm : '\n' ∈ "abc".toList := List.getElem?_mem hi.1
    simp at hm
  exact ⟨h, C4_sanitize_unescaped_newlines.2.2 _ h⟩

/-! ## Lemmas about the extractor -/

theorem findFirst_eq_none {c : Char} {t : List Char} :
    findFirst c t = none ↔ ∀ k : Nat, t[k]? ≠ some c := by
  induction t with
  | nil => simp [findFirst]
  | cons x xs ih =>
    rw [findFirst]
    by_cases hx : x = c
    · rw [if_pos hx]
      constructor
      · intro h
        exact Option.noConfusion h
      · intro h
        exact absurd (by simpa using hx) (h 0)
    · rw [if_neg hx, Option.map_eq_none']
      constructor
      · intro h k
        cases k with
        | zero => simpa using hx
        | succ m => simpa using ih.mp h m
      · intro h
        exact ih.mpr fun m => by simpa using h (m + 1)

theorem findFirst_eq_some {c : Char} {t : List Char} :
    ∀ {i : Nat},
      findFirst c t = some i ↔ (t[i]? = some c ∧ ∀ k, k < i → t[k]? ≠ some c) := by
  induction t with
  | nil => intro i; simp [findFirst]
  | cons x xs ih =>
    intro i
    rw [findFirst]
    by_cases hx : x = c
    · rw [if_pos hx]
      constructor
      · intro h
        cases h
        exact ⟨by simpa using hx, by omega⟩
      · intro h
        cases i with
        | zero => rfl
        | succ j => exact absurd (by simpa using hx) (h.2 0 (Nat.succ_pos j))
    · rw [if_neg hx]
      cases i with
      | zero =>
        simp only [Option.map_eq_some']
        constructor
        · rintro ⟨a, -, ha⟩
          exact absurd ha (by omega)
        · intro h
          exact absurd h.1 (by simpa using hx)
      | succ j =>
        simp only [Option.map_eq_some']
        constructor
        · rintro ⟨a, ha, haj⟩
          have haj' : a = j := by omega
          subst haj'
          have hs := ih.mp ha
          refine ⟨by simpa using hs.1, ?_⟩
          intro k hk
          cases k with
          | zero => simpa using hx
          | succ m => simpa using hs.2 m (by omega)
        · intro h
          refine ⟨j, ih.mpr ⟨by simpa using h.1, ?_⟩, rfl⟩
          intro m hm
          simpa using h.2 (m + 1) (by omega)

theorem findLast_eq_none {c : Char} {t : List Char} :
    findLast c t = none ↔ ∀ k : Nat, t[k]? ≠ some c := by
  induction t with
  | nil => simp [findLast]
  | cons x xs ih =>
    rw [findLast]
    cases hfl : findLast c xs with
    | some j =>
      constructor
      · intro h
        exact Option.noConfusion h
      · intro h
        have hxs : findLast c xs = none := ih.mpr fun m => by simpa using h (m + 1)
        rw [hfl] at hxs
        exact Option.noConfusion hxs
    | none =>
      have hxs := ih.mp hfl
      by_cases hx : x = c
      · rw [if_pos hx]
        constructor
        · intro h
          exact Option.noConfusion h
        · intro h
          exact absurd (by simpa using hx) (h 0)
      · rw [if_neg hx]
        constructor
        · intro _ k
          cases k with
          | zero => simpa using hx
          | succ m => simpa using hxs m
        · intro _
          rfl

theorem findLast_eq_some {c : Char} {t : List Char} :
    ∀ {j : Nat},
      findLast c t = some j ↔ (t[j]? = some c ∧ ∀ k, j < k → t[k]? ≠ some c) := by
  induction t with
  | nil => intro j; simp [findLast]
  | cons x xs ih =>
    intro j
    rw [findLast]
    cases hfl : findLast c xs with
    | some j' =>
      have hs := ih.mp hfl
      constructor
      · intro h
        cases h
        refine ⟨by simpa using hs.1, ?_⟩
        intro k hk
        cases k with
        | zero => omega
        | succ m => simpa using hs.2 m (by omega)
      · intro h
        cases j with
        | zero =>
          exact absurd (by simpa using hs.1)
            (by simpa using h.2 (j' + 1) (Nat.succ_pos j'))
        | succ m =>
          have hm : findLast c xs = some m := ih.mpr
            ⟨by simpa using h.1, fun k hk => by simpa using h.2 (k + 1) (by omega)⟩
          rw [hfl] at hm
          cases hm
          rfl
    | none =>
      have hnone := findLast_eq_none.mp hfl
      by_cases hx : x = c
      · rw [if_pos hx]
        constructor
        · intro h
          cases h
          refine ⟨by simpa using hx, ?_⟩
          intro k hk
          cases k with
          | zero => omega
          | succ m => simpa using hnone m
        · intro h
          cases j with
          | zero => rfl
          | succ m => exact absurd (by simpa using h.1) (by simpa using hnone m)
      · rw [if_neg hx]
        constructor
        · intro h
          exact Option.noConfusion h
        · intro h
          cases j with
          | zero => exact absurd h.1 (by simpa using hx)
          | succ m => exact absurd (by simpa using h.1) (by simpa using hnone m)

/-- Claim C3: when the text contains a `'{'` followed (strictly later) by a
`'}'`, `extract_json` returns the contiguous span from the first `'{'` of the
whole text to its last `'}'` (greedy, not brace-depth matched); and on the
concrete text `chatter {"a":1} trailer` it returns exactly the span
`{"a":1}`. -/
theorem C3_extract_greedy_first_to_last :
    (∀ t : List Char,
        (∃ i j : Nat, i < j ∧ t[i]? = some '{' ∧ t[j]? = some '}') →
        ∃ i₀ j₀ : Nat,
          t[i₀]? = some '{' ∧ (∀ k, k < i₀ → t[k]? ≠ some '{') ∧
          t[j₀]? = some '}' ∧ (∀ k, j₀ < k → t[k]? ≠ some '}') ∧
          i₀ < j₀ ∧
          extract_json t = some ((t.drop i₀).take (j₀ + 1 - i₀))) ∧
    extract_json ("chatter \x7b\"a\":1\x7d trailer".toList) =
      some ("\x7b\"a\":1\x7d".toList) := by
  constructor
  · intro t ht
    obtain ⟨i, j, hij, hi, hj⟩ := ht
    cases hfirst : findFirst '{' t with
    | none => exact absurd hi (findFirst_eq_none.mp hfirst i)
    | some i₀ =>
      cases hlast : findLast '}' t with
      | none => exact absurd hj (findLast_eq_none.mp hlast j)
      | some j₀ =>
        have hfs := findFirst_eq_some.mp hfirst
        have hls := findLast_eq_some.mp hlast
        have hi₀ : i₀ ≤ i := by
          by_contra hlt
          exact hfs.2 i (by omega) hi
        have hj₀ : j ≤ j₀ := by
          by_contra hgt
          exact hls.2 j (by omega) hj
        have hltij : i₀ < j₀ := by omega
        refine ⟨i₀, j₀, hfs.1, hfs.2, hls.1, hls.2, hltij, ?_⟩
        have hred : extract_json t =
            if i₀ < j₀ then some ((t.drop i₀).take (j₀ + 1 - i₀)) else none := by
          rw [extract_json, hfirst, hlast]
        rw [hred, if_pos hltij]
  · rfl

/-- Witness for `C3_extract_greedy_first_to_last`: the concrete text
`chatter {"a":1} trailer` satisfies the hypothesis (a `'{'` at index 8
precedes a `'}'` at index 14), and the theorem yields the greedy span. -/
theorem C3_extract_witness :
    ∃ i₀ j₀ : Nat,
      ("chatter \x7b\"a\":1\x7d trailer".toList)[i₀]? = some '{' ∧
      (∀ k, k < i₀ → ("chatter \x7b\"a\":1\x7d trailer".toList)[k]? ≠ some '{') ∧
      ("chatter \x7b\"a\":1\x7d trailer".toList)[j₀]? = some '}' ∧
      (∀ k, j₀ < k → ("chatter \x7b\"a\":1\x7d trailer".toList)[k]? ≠ some '}') ∧
      i₀ < j₀ ∧
      extract_json ("chatter \x7b\"a\":1\x7d trailer".toList) =
        some (("chatter \x7b\"a\":1\x7d trailer".toList.drop i₀).take (j₀ + 1 - i₀)) :=
  C3_extract_greedy_first_to_last.1 _ ⟨8, 14, by decide, by decide, by decide⟩

/-- Claim C5: `extract_json` takes the `ValueError` path ("NoJsonFound")
exactly when the text has no `'{'` followed (strictly later) by a `'}'`; in
particular any text with no `'{'` at all fails. -/
theorem C5_extract_none_iff_no_span :
    (∀ t : List Char,
        extract_json t = none ↔
          ¬∃ i j : Nat, i < j ∧ t[i]? = some '{' ∧ t[j]? = some '}') ∧
    (∀ t : List Char, (∀ k : Nat, t[k]? ≠ some '{') → extract_json t = none) := by
  have hmain : ∀ t : List Char,
      extract_json t = none ↔
        ¬∃ i j : Nat, i < j ∧ t[i]? = some '{' ∧ t[j]? = some '}' := by
    intro t
    constructor
    · intro h hex
      obtain ⟨i, j, hij, hi, hj⟩ := hex
      cases hfirst : findFirst '{' t with
      | none => exact findFirst_eq_none.mp hfirst i hi
      | some i₀ =>
        cases hlast : findLast '}' t with
        | none => exact findLast_eq_none.mp hlast j hj
        | some j₀ =>
          have hfs := findFirst_eq_some.mp hfirst
          have hls := findLast_eq_some.mp hlast
          have hi₀ : i₀ ≤ i := by
            by_contra hlt
            exact hfs.2 i (by omega) hi
          have hj₀ : j ≤ j₀ := by
            by_contra hgt
            exact hls.2 j (by omega) hj
          have hred : extract_json t =
              if i₀ < j₀ then some ((t.drop i₀).take (j₀ + 1 - i₀)) else none := by
            rw [extract_json, hfirst, hlast]
          rw [hred, if_pos (by omega : i₀ < j₀)] at h
          exact Option.noConfusion h
    · intro h
      cases hfirst : findFirst '{' t with
      | none => rw [extract_json, hfirst]
      | some i₀ =>
        cases hlast : findLast '}' t with
        | none => rw [extract_json, hfirst, hlast]
        | some j₀ =>
          have hfs := findFirst_eq_some.mp hfirst
          have hls := findLast_eq_some.mp hlast
          have hred : extract_json t =
              if i₀ < j₀ then some ((t.drop i₀).take (j₀ + 1 - i₀)) else none := by
            rw [extract_json, hfirst, hlast]
          rw [hred, if_neg]
          intro hlt
          exact h ⟨i₀, j₀, hlt, hfs.1, hls.1⟩
  refine ⟨hmain, ?_⟩
  intro t h
  rw [hmain t]
  rintro ⟨i, j, -, hi, -⟩
  exact h i hi

/-- Witness for `C5_extract_none_iff_no_span`: on the concrete brace-free
text `abc`, `extract_json` fails, by the second part of the theorem. -/
theorem C5_extract_witness :
    (∀ k : Nat, ("abc".toList)[k]? ≠ some '{') ∧
    extract_json ("abc".toList) = none := by
  have h : ∀ k : Nat, ("abc".toList)[k]? ≠ some '{' := by
    intro k hk
    have hm : '{' ∈ "abc".toList := List.getElem?_mem hk
    simp at hm
  exact ⟨h, C5_extract_none_iff_no_span.2 _ h⟩

/-! ## Lemmas about the row builder -/

theorem zip_eq_range_map {α β : Type} (d₁ : α) (d₂ : β) :
    ∀ (as : List α) (bs : List β),
      as.zip bs = (List.range (min as.length bs.length)).map
        (fun i => (as.getD i d₁, bs.getD i d₂)) := by
  intro as
  induction as with
  | nil => intro bs; simp
  | cons a as ih =>
    intro bs
    cases bs with
    | nil => simp
    | cons b bs =>
      rw [List.zip_cons_cons, ih bs]
      simp only [List.length_cons, Nat.succ_min_succ, List.range_succ_eq_map,
        List.map_cons, List.map_map]
      rfl

/-- Claim C1: `build` pairs `codings[i]` with `verbatims[i]` for
`i < min (length codings) (length verbatims)` within each ThemeBlock,
dropping the excess of the longer sequence, with rows in theme order then
pairing order; the block `codings = [c1, c2, c3]`, `verbatims = [v1, v2]`
yields exactly the two rows `(theme, c1, v1)`, `(theme, c2, v2)`; and a
payload with zero themes yields the empty table. -/
theorem C1_build_pairs_to_min :
    (∀ payload : List ThemeBlock,
        build payload = payload.flatMap fun b =>
          (List.range (min b.codings.length b.verbatims.length)).map fun i =>
            Row.mk (.str b.theme) (.str (b.codings.getD i []))
              (.str (b.verbatims.getD i []))) ∧
    build [⟨"theme".toList, ["c1".toList, "c2".toList, "c3".toList],
        ["v1".toList, "v2".toList]⟩] =
      [⟨.str "theme".toList, .str "c1".toList, .str "v1".toList⟩,
       ⟨.str "theme".toList, .str "c2".toList, .str "v2".toList⟩] ∧
    build [] = [] := by
  refine ⟨?_, rfl, rfl⟩
  intro payload
  unfold build
  congr 1
  funext b
  rw [zip_eq_range_map [] [] b.codings b.verbatims, List.map_map]
  rfl

/-- The payload view agrees with the source translation: on the JSON
encoding of a well-formed CodingPayload, the row loop of src/main.py lines
136–147 succeeds and produces exactly `build payload`. -/
theorem buildRows_payloadJson (p : List ThemeBlock) :
    buildRows (payloadJson p) = some (build p) := by
  have hblock : ∀ b : ThemeBlock,
      rowsOfBlock (.obj [("theme".toList, .str b.theme),
        ("codages".toList, .arr (b.codings.map .str)),
        ("verbatims".toList, .arr (b.verbatims.map .str))]) =
      some ((b.codings.zip b.verbatims).map fun q =>
        Row.mk (.str b.theme) (.str q.1) (.str q.2)) := by
    intro b
    have h1 : rowsOfBlock (.obj [("theme".toList, .str b.theme),
        ("codages".toList, .arr (b.codings.map .str)),
        ("verbatims".toList, .arr (b.verbatims.map .str))]) =
        some (((b.codings.map Json.str).zip (b.verbatims.map Json.str)).map fun q =>
          Row.mk (Json.str b.theme) q.1 q.2) := rfl
    rw [h1, List.zip_map, List.map_map]
    rfl
  have hmapM : ∀ l : List ThemeBlock,
      ((l.map fun b => Json.obj [("theme".toList, .str b.theme),
        ("codages".toList, .arr (b.codings.map .str)),
        ("verbatims".toList, .arr (b.verbatims.map .str))]).mapM rowsOfBlock) =
      some (l.map fun b => (b.codings.zip b.verbatims).map fun q =>
        Row.mk (.str b.theme) (.str q.1) (.str q.2)) := by
    intro l
    induction l with
    | nil => rfl
    | cons b bs ih =>
      rw [List.map_cons, List.mapM_cons, hblock b, ih]
      rfl
  have h0 : buildRows (payloadJson p) =
      ((p.map fun b => Json.obj [("theme".toList, .str b.theme),
        ("codages".toList, .arr (b.codings.map .str)),
        ("verbatims".toList, .arr (b.verbatims.map .str))]).mapM rowsOfBlock).map
        List.flatten := rfl
  rw [h0, hmapM p]
  simp [build, List.flatMap_def]

/-- Claim C9: the row builder is a pure, deterministic function of its
payload: equal payloads produce equal tables, with no dependence on hidden
state (the model is a function of the payload alone). -/
theorem C9_build_deterministic :
    ∀ p q : List ThemeBlock, p = q → build p = build q :=
  fun _ _ h => congrArg build h

/-- Witness for `C9_build_deterministic` at a concrete payload. -/
theorem C9_build_witness :
    build [⟨"t".toList, ["c".toList], ["v".toList]⟩] =
      build [⟨"t".toList, ["c".toList], ["v".toList]⟩] :=
  C9_build_deterministic _ _ rfl

/-! ## Theorems about the orchestrator -/

/-- Claim C8: a document whose text is empty or whitespace-only is skipped
and the pipeline continues with the remaining documents: the run outcome,
the accumulated codebook, and the log of analysis-service calls are exactly
those of the run without that document — so no analysis call is made for it
and it contributes no codebook entry. -/
theorem C8_blank_doc_skipped :
    ∀ (analyze : List Char → List Char) (cb : Codebook) (d : Doc)
      (rest : List Doc),
      isBlank d.text = true →
      processDocs analyze cb (d :: rest) = processDocs analyze cb rest := by
  intro analyze cb d rest h
  rw [processDocs, if_pos h]

/-- Witness for `C8_blank_doc_skipped` at a concrete whitespace-only
document. -/
theorem C8_blank_witness :
    isBlank "  ".toList = true ∧
    processDocs analyzeW [] [⟨"n".toList, "  ".toList⟩] = processDocs analyzeW [] [] :=
  ⟨rfl, C8_blank_doc_skipped analyzeW [] ⟨"n".toList, "  ".toList⟩ [] rfl⟩

/-- Claim C2: when every earlier document either was blank (skipped) or
processed successfully, and a non-blank document's response fails JSON
extraction or parsing, the whole run returns the abort outcome carrying the
*unmodified* raw response — the documents after it (universally quantified
and absent from the conclusion) are never processed, the call log ends at
the failing document, and because the outcome is not `.ok` no artifact, not
even a partial one, is written. -/
theorem C2_abort_on_malformed :
    ∀ (analyze : List Char → List Char) (cb : Codebook) (pre : List Doc)
      (d : Doc) (post : List Doc),
      (∀ d' ∈ pre, docOk analyze d') →
      isBlank d.text = false →
      docParse (analyze d.text) = none →
      processDocs analyze cb (pre ++ d :: post) =
        (.aborted (analyze d.text),
         (pre.filter fun d' => !isBlank d'.text).map Doc.text ++ [d.text]) := by
  intro analyze cb pre
  induction pre generalizing cb with
  | nil =>
    intro d post _ hblank hparse
    simp only [List.nil_append, List.filter_nil, List.map_nil]
    rw [processDocs, if_neg (by simp [hblank])]
    simp only [hparse]
  | cons p ps ih =>
    intro d post hok hblank hparse
    have hokp := hok p (List.mem_cons_self p ps)
    have hoks : ∀ d' ∈ ps, docOk analyze d' :=
      fun d' hd' => hok d' (List.mem_cons_of_mem p hd')
    simp only [List.cons_append]
    by_cases hb : isBlank p.text = true
    · rw [processDocs, if_pos hb, ih cb d post hoks hblank hparse]
      simp [List.filter_cons, hb]
    · have hb' : isBlank p.text = false := by
        simpa using hb
      rcases hokp with hcontra | hsome
      · exact absurd hcontra hb
      · cases hdp : docParse (analyze p.text) with
        | none =>
          rw [docRows, hdp] at hsome
          simp at hsome
        | some data =>
          cases hbr : buildRows data with
          | none =>
            rw [docRows, hdp] at hsome
            simp [hbr] at hsome
          | some rows =>
            rw [processDocs, if_neg (by simp [hb'])]
            simp only [hdp, hbr]
            rw [ih (dictInsert cb (p.name.take 31) rows) d post hoks hblank hparse]
            simp [List.filter_cons, hb']

/-- Witness for `C2_abort_on_malformed`: a concrete run with one successful
document, then one whose response has no JSON object, then one more that is
never reached; the run aborts with the raw prose response and a two-call
log. -/
theorem C2_abort_witness :
    (∀ d' ∈ [Doc.mk "a".toList "good".toList], docOk analyzeW d') ∧
    isBlank "bad".toList = false ∧
    docParse (analyzeW "bad".toList) = none ∧
    processDocs analyzeW []
        ([Doc.mk "a".toList "good".toList] ++
          Doc.mk "b".toList "bad".toList :: [Doc.mk "c".toList "cc".toList]) =
      (.aborted (analyzeW "bad".toList), ["good".toList, "bad".toList]) := by
  have hok : ∀ d' ∈ [Doc.mk "a".toList "good".toList], docOk analyzeW d' := by
    intro d' hd'
    rw [List.mem_singleton] at hd'
    subst hd'
    exact Or.inr rfl
  exact ⟨hok, rfl, rfl,
    C2_abort_on_malformed analyzeW [] [Doc.mk "a".toList "good".toList]
      (Doc.mk "b".toList "bad".toList) [Doc.mk "c".toList "cc".toList] hok rfl rfl⟩

theorem mem_dictInsert {cb : Codebook} {k k' : List Char} {v v' : List Row} :
    (k, v) ∈ dictInsert cb k' v' → k = k' ∨ (k, v) ∈ cb := by
  induction cb with
  | nil =>
    intro h
    rw [dictInsert, List.mem_singleton] at h
    exact Or.inl (congrArg Prod.fst h)
  | cons a rest ih =>
    obtain ⟨a1, a2⟩ := a
    intro h
    rw [dictInsert] at h
    by_cases ha : a1 = k'
    · rw [if_pos ha] at h
      rcases List.mem_cons.mp h with heq | hmem
      · exact Or.inl (congrArg Prod.fst heq)
      · exact Or.inr (List.mem_cons_of_mem _ hmem)
    · rw [if_neg ha] at h
      rcases List.mem_cons.mp h with heq | hmem
      · exact Or.inr (heq ▸ List.mem_cons_self _ _)
      · rcases ih hmem with hk | hcb
        · exact Or.inl hk
        · exact Or.inr (List.mem_cons_of_mem _ hcb)

theorem processDocs_ok_keys :
    ∀ (docs : List Doc) (analyze : List Char → List Char) (cb res : Codebook)
      (log : List (List Char)),
      processDocs analyze cb docs = (.ok res, log) →
      ∀ k v, (k, v) ∈ res →
        (∃ v₀, (k, v₀) ∈ cb) ∨ ∃ d ∈ docs, k = d.name.take 31 := by
  intro docs
  induction docs with
  | nil =>
    intro analyze cb res log h k v hmem
    rw [processDocs] at h
    cases h
    exact Or.inl ⟨v, hmem⟩
  | cons d rest ih =>
    intro analyze cb res log h k v hmem
    rw [processDocs] at h
    by_cases hb : isBlank d.text = true
    · rw [if_pos hb] at h
      rcases ih analyze cb res log h k v hmem with hcb | ⟨d', hd', hk⟩
      · exact Or.inl hcb
      · exact Or.inr ⟨d', List.mem_cons_of_mem d hd', hk⟩
    · rw [if_neg hb] at h
      cases hdp : docParse (analyze d.text) with
      | none =>
        simp only [hdp] at h
        exact absurd (congrArg Prod.fst h) (by simp)
      | some data =>
        cases hbr : buildRows data with
        | none =>
          simp only [hdp, hbr] at h
          exact absurd (congrArg Prod.fst h) (by simp)
        | some rows =>
          simp only [hdp, hbr] at h
          have hfst : (processDocs analyze (dictInsert cb (d.name.take 31) rows) rest).1
              = .ok res := congrArg Prod.fst h
          have hrun : processDocs analyze (dictInsert cb (d.name.take 31) rows) rest =
              (.ok res, (processDocs analyze (dictInsert cb (d.name.take 31) rows) rest).2) := by
            rw [← hfst]
          rcases ih analyze (dictInsert cb (d.name.take 31) rows) res _ hrun k v hmem with
            ⟨v₀, hv₀⟩ | ⟨d', hd', hk⟩
          · rcases mem_dictInsert hv₀ with hkey | hcb
            · exact Or.inr ⟨d, List.mem_cons_self d rest, hkey⟩
            · exact Or.inl ⟨v₀, hcb⟩
          · exact Or.inr ⟨d', List.mem_cons_of_mem d hd', hk⟩

/-- Claim C7: in any completed run, every key of the accumulated codebook is
some processed document's display name truncated to at most 31 characters;
and in the concrete duplicate-sheet example two documents with the same
61-character display name leave a single entry holding the *second*
document's table (Python dict assignment is last-write-wins). -/
theorem C7_sheet_keys_truncated_lastwrite :
    (∀ (analyze : List Char → List Char) (docs : List Doc) (cb : Codebook)
        (log : List (List Char)),
        run analyze docs = (.ok cb, log) →
        ∀ k v, (k, v) ∈ cb →
          k.length ≤ 31 ∧ ∃ d ∈ docs, k = d.name.take 31) ∧
    run analyze7 [⟨longName, "one".toList⟩, ⟨longName, "two".toList⟩] =
      (.ok [(longName.take 31,
        [⟨.str "T2".toList, .str "B".toList, .str "V2".toList⟩])],
       ["one".toList, "two".toList]) := by
  constructor
  · intro analyze docs cb log h k v hmem
    rcases processDocs_ok_keys docs analyze [] cb log h k v hmem with ⟨v₀, hv₀⟩ | ⟨d, hd, hk⟩
    · exact absurd hv₀ (List.not_mem_nil _)
    · refine ⟨?_, d, hd, hk⟩
      rw [hk]
      simp [List.length_take]
  · rfl

/-- Witness for `C7_sheet_keys_truncated_lastwrite`: applying the universal
part to the concrete duplicate-sheet run shows its single key is at most 31
characters and comes from one of the two documents. -/
theorem C7_sheet_keys_witness :
    (longName.take 31).length ≤ 31 ∧
    ∃ d ∈ [Doc.mk longName "one".toList, Doc.mk longName "two".toList],
      longName.take 31 = d.name.take 31 :=
  C7_sheet_keys_truncated_lastwrite.1 analyze7
    [Doc.mk longName "one".toList, Doc.mk longName "two".toList]
    [(longName.take 31, [⟨.str "T2".toList, .str "B".toList, .str "V2".toList⟩])]
    ["one".toList, "two".toList]
    C7_sheet_keys_truncated_lastwrite.2
    (longName.take 31) [⟨.str "T2".toList, .str "B".toList, .str "V2".toList⟩]
    (List.mem_singleton.mpr rfl)

/-- Claim C6: per-document processing runs the extractor on the original
unsanitized response and the sanitizer only on the extracted span (first
conjunct, read off lines 126–128); composed end-to-end, the spec's example
response — prose, newline, the JSON payload, newline, prose — produces
exactly the one-row table `(T, A, quote one)` under the document's sheet
key, with one analysis call logged. -/
theorem C6_extract_before_sanitize_end_to_end :
    (∀ resp span : List Char, extract_json resp = some span →
        docParse resp = jsonParse (clean_json_string span)) ∧
    run (fun _ => resp6) [⟨"doc".toList, "some text".toList⟩] =
      (.ok [("doc".toList,
        [⟨.str "T".toList, .str "A".toList, .str "quote one".toList⟩])],
       ["some text".toList]) := by
  constructor
  · intro resp span h
    rw [docParse, h]
  · rfl

/-- Witness for `C6_extract_before_sanitize_end_to_end`: the example
response's extracted span is its JSON object, and the parse stage equals
sanitize-then-parse of that span. -/
theorem C6_extract_witness :
    extract_json resp6 =
      some (("\x7b\"themes\":[\x7b\"theme\":\"T\",\"codages\":[\"A\"],"
        ++ "\"verbatims\":[\"quote one\"]\x7d]\x7d").toList) ∧
    docParse resp6 =
      jsonParse (clean_json_string (("\x7b\"themes\":[\x7b\"theme\":\"T\",\"codages\":[\"A\"],"
        ++ "\"verbatims\":[\"quote one\"]\x7d]\x7d").toList)) :=
  ⟨rfl, C6_extract_before_sanitize_end_to_end.1 resp6 _ rfl⟩

/-- Claim C10: missing structure in a successfully parsed JSON object is
tolerated with defaults rather than treated as a failure: no `themes` key
gives the empty table; in a theme block a missing `theme` key defaults to
the empty string, and a missing `codages` or `verbatims` key is treated as
the empty sequence, contributing zero rows — in each case the loop returns
rows (`some …`), so nothing is raised and the run is not aborted. -/
theorem C10_missing_keys_tolerated :
    (∀ m : List (List Char × Json), lookupLast m "themes".toList = none →
        buildRows (.obj m) = some []) ∧
    (∀ (bm : List (List Char × Json)) (cs vs : List Json),
        lookupLast bm "theme".toList = none →
        lookupLast bm "codages".toList = some (.arr cs) →
        lookupLast bm "verbatims".toList = some (.arr vs) →
        buildRows (.obj [("themes".toList, .arr [.obj bm])]) =
          some ((cs.zip vs).map fun q => Row.mk (.str []) q.1 q.2)) ∧
    (∀ (bm : List (List Char × Json)) (vs : List Json),
        lookupLast bm "codages".toList = none →
        asElems (lookupLast bm "verbatims".toList) = some vs →
        buildRows (.obj [("themes".toList, .arr [.obj bm])]) = some []) ∧
    (∀ (bm : List (List Char × Json)) (cs : List Json),
        asElems (lookupLast bm "codages".toList) = some cs →
        lookupLast bm "verbatims".toList = none →
        buildRows (.obj [("themes".toList, .arr [.obj bm])]) = some []) := by
  have hsingle : ∀ bm : List (List Char × Json),
      buildRows (.obj [("themes".toList, .arr [.obj bm])]) =
        (rowsOfBlock (.obj bm)).map (fun rows => rows) := by
    intro bm
    have h1 : buildRows (.obj [("themes".toList, .arr [.obj bm])]) =
        (List.mapM rowsOfBlock [Json.obj bm]).map List.flatten := rfl
    have hms : List.mapM rowsOfBlock [Json.obj bm] =
        (rowsOfBlock (.obj bm)).bind fun r => some [r] := rfl
    rw [h1, hms]
    cases rowsOfBlock (.obj bm) with
    | none => rfl
    | some rows => simp
  refine ⟨?_, ?_, ?_, ?_⟩
  · intro m h
    rw [buildRows, h]
    rfl
  · intro bm cs vs h1 h2 h3
    rw [hsingle bm, rowsOfBlock, h1, h2, h3]
    rfl
  · intro bm vs h1 h2
    rw [hsingle bm, rowsOfBlock, h1]
    cases hv : lookupLast bm "verbatims".toList with
    | none => rfl
    | some v =>
      rw [hv] at h2
      cases v with
      | arr l => rfl
      | null => exact Option.noConfusion h2
      | bool b => exact Option.noConfusion h2
      | num n => exact Option.noConfusion h2
      | str s => exact Option.noConfusion h2
      | obj o => exact Option.noConfusion h2
  · intro bm cs h1 h2
    rw [hsingle bm, rowsOfBlock, h2]
    cases hc : lookupLast bm "codages".toList with
    | none => rfl
    | some c =>
      rw [hc] at h1
      cases c with
      | arr l =>
        show some ((l.zip ([] : List Json)).map fun p =>
          Row.mk ((lookupLast bm "theme".toList).getD (.str [])) p.1 p.2) = some []
        rw [List.zip_nil_right]
        rfl
      | null => exact Option.noConfusion h1
      | bool b => exact Option.noConfusion h1
      | num n => exact Option.noConfusion h1
      | str s => exact Option.noConfusion h1
      | obj o => exact Option.noConfusion h1

/-- Witness for `C10_missing_keys_tolerated`: a concrete theme block with no
`theme` key (and empty codings/verbatims arrays) builds the empty table via
the second conjunct. -/
theorem C10_missing_keys_witness :
    lookupLast [("codages".toList, Json.arr []), ("verbatims".toList, Json.arr [])]
      "theme".toList = none ∧
    buildRows (.obj [("themes".toList, .arr
      [.obj [("codages".toList, Json.arr []), ("verbatims".toList, Json.arr [])]])]) =
      some [] :=
  ⟨rfl, C10_missing_keys_tolerated.2.1
    [("codages".toList, Json.arr []), ("verbatims".toList, Json.arr [])]
    [] [] rfl rfl rfl⟩

end CodeSocial
